import Mathlib

/-!
Verification development for the `injectables` procedural-macro crate.

The Rust sources are shallowly embedded: the two global registries
(`FIELD_REGISTRY : HashMap<String, ModuleInfo>` and
`INJECTION_CHAINS : HashMap<String, HashSet<String>>`) become association
lists threaded through the functions, `Result<T, E>` becomes `Except`,
and in-place mutation becomes explicit state passing.  Hash sets are
modelled as duplicate-free-by-construction lists (insertion only appends
an element that is not already present), so set equality is stated via
`List.toFinset`.  Error strings built with `format!` are modelled by the
structured `InjErr` type; each constructor records exactly the data the
corresponding Rust message interpolates.
-/

namespace Injectables

/-- Visibility of a field, from `src/visibility.rs` (`VisibilityKind`).
`Restricted s` stores the path text of a `pub(...)` restriction;
`pub(crate)` is `Restricted "crate"`. -/
inductive VisibilityKind where
  | Public
  | Private
  | Restricted (path : String)
  deriving DecidableEq, Repr

/-- One injectable field, from `src/types.rs` (`FieldDef`). -/
structure FieldDef where
  name : String
  ty : String
  vis : VisibilityKind
  generic_params : List String
  deriving DecidableEq, Repr

/-- Registry entry for an injectable struct, from `src/types.rs` (`ModuleInfo`). -/
structure ModuleInfo where
  fields : List FieldDef
  module_path : String
  deriving DecidableEq, Repr

/-- Resolved per-field information, from `src/types.rs` (`FieldTypeInfo`).
Also used as the model of an emitted `syn::Field` (name, type text,
visibility are the data the macro writes into the output struct). -/
structure FieldTypeInfo where
  name : String
  ty : String
  vis : VisibilityKind
  deriving DecidableEq, Repr

/-- Structured model of the error messages the crate produces with
`format!`; each constructor keeps the interpolated data of the
corresponding Rust message. -/
inductive InjErr where
  | recursiveInjection (source : String)
  | circularChain (target source : String)
  | conflictingTypes (field ty1 ty2 : String)
  | conflictingVisibility (field : String)
  | accessViolation (field : String) (vis : VisibilityKind) (declScope reqScope : String)
  | unknownProvider (name : String)
  | notInjectable (name : String)
  | onlyNamedFields
  | onlyStructs
  deriving DecidableEq, Repr

/-- Model of `HashSet<String>`: a list used up to membership. -/
abbrev DepSet := List String

/-- Model of `INJECTION_CHAINS : HashMap<String, HashSet<String>>`. -/
abbrev Chains := List (String × DepSet)

/-- Model of `FIELD_REGISTRY : HashMap<String, ModuleInfo>`. -/
abbrev Registry := List (String × ModuleInfo)

/-- `HashSet::insert`: add the element if it is not already present. -/
def hsInsert (s : DepSet) (x : String) : DepSet :=
  if x ∈ s then s else s ++ [x]

/-- `HashSet::extend`: insert every element of `xs`. -/
def hsExtend (s : DepSet) (xs : List String) : DepSet :=
  xs.foldl hsInsert s

/-- `chains.get(k).cloned().unwrap_or_default()`: the recorded dependency
set of `k`, empty when `k` is not a key. -/
def chainsGetD : Chains → String → DepSet
  | [], _ => []
  | (k, v) :: rest, key => if k = key then v else chainsGetD rest key

/-- `chains.entry(k).or_default()` followed by an in-place mutation `f` of
the entry. -/
def chainsUpdate : Chains → String → (DepSet → DepSet) → Chains
  | [], key, f => [(key, f [])]
  | (k, v) :: rest, key, f =>
    if k = key then (k, f v) :: rest else (k, v) :: chainsUpdate rest key f

/-- `registry.get(name)`. -/
def registryGet : Registry → String → Option ModuleInfo
  | [], _ => none
  | (k, v) :: rest, key => if k = key then some v else registryGet rest key

/-- `registry[name]`, the indexing used by `process_fields`; the Rust code
panics when the key is absent, which never happens on the paths exercised
here because `validate_and_process_input` has already checked presence.
The absent case is modelled by a default entry. -/
def registryGetD (r : Registry) (name : String) : ModuleInfo :=
  (registryGet r name).getD ⟨[], ""⟩

/-- `registry.get_mut(name)` followed by `info.module_path = mp`
(no-op when the key is absent; `update_module_paths` checks first). -/
def registrySetScope : Registry → String → String → Registry
  | [], _, _ => []
  | (k, v) :: rest, name, mp =>
    if k = name then (k, { v with module_path := mp }) :: rest
    else (k, v) :: registrySetScope rest name mp

/-- `check_and_update_injection_chain` from `src/registry.rs` (lines
73-105), with the global `INJECTION_CHAINS` passed in and the updated map
returned on success. -/
def check_and_update_injection_chain (chains : Chains) (target source : String) :
    Except InjErr Chains :=
  if source = target then
    .error (.recursiveInjection source)
  else
    let target_deps := chainsGetD chains target
    let source_deps := hsInsert (chainsGetD chains source) source
    if source_deps.any (fun dep => target_deps.contains dep || dep == target) then
      .error (.circularChain target source)
    else
      .ok (chainsUpdate chains target (fun t => hsExtend (hsInsert t source) source_deps))

/-- Model of Rust `str::starts_with`. -/
def strStartsWith (s p : String) : Bool :=
  p.data.isPrefixOf s.data

/-- Model of the Rust byte slice `s[n..]`; the embedding counts characters
instead of bytes, which agrees on the paths exercised here (a prefix has
just been checked, and scope paths are plain identifiers). -/
def strDrop (s : String) (n : Nat) : String :=
  ⟨s.data.drop n⟩

/-- Model of `str::trim_start_matches("in ")`: repeatedly strip a leading
occurrence of the pattern. -/
def trimLeadingIn : List Char → List Char
  | 'i' :: 'n' :: ' ' :: rest => trimLeadingIn rest
  | l => l

/-- `can_access_field` from `src/visibility.rs` (lines 122-148).
`target_module` is the scope the field is declared in, `source_module`
the scope requesting access. -/
def can_access_field (vis : VisibilityKind) (target_module source_module : String) : Bool :=
  match vis with
  | .Public => true
  | .Private =>
    if target_module == "" && source_module == "" then
      true
    else
      let same_module := source_module == target_module
      let is_child := strStartsWith source_module target_module &&
        strStartsWith (strDrop source_module target_module.length) "::"
      same_module || is_child
  | .Restricted restriction =>
    match restriction with
    | "crate" => true
    | "super" => strStartsWith source_module target_module
    | "self" => target_module == source_module
    | path => strStartsWith source_module ⟨trimLeadingIn path.data⟩

/-- Model of Rust `str::replace`: replace every non-overlapping occurrence
of `pat` in `s` by `rep`, scanning left to right.  (For the empty pattern
this returns `s` unchanged; the crate only ever substitutes generic
parameter names, which are nonempty identifiers.) -/
def replaceAll (s pat rep : List Char) : List Char :=
  if h : pat ≠ [] ∧ pat.isPrefixOf s then
    rep ++ replaceAll (s.drop pat.length) pat rep
  else
    match s with
    | [] => []
    | c :: rest => c :: replaceAll rest pat rep
termination_by s.length
decreasing_by
  · have hpre : pat <+: s := List.isPrefixOf_iff_prefix.mp h.2
    have hle : pat.length ≤ s.length := hpre.length_le
    have hpos : 0 < pat.length := List.length_pos.mpr h.1
    simp only [List.length_drop]
    omega
  · simp

/-- `str::replace` lifted to `String`. -/
def strReplace (s pat rep : String) : String :=
  ⟨replaceAll s.data pat.data rep.data⟩

/-- A source reference in `#[inject_fields(...)]`: the relevant parts of a
`syn::TypePath`.  `mods` are the path segments before the final one,
`name` the final segment identifier, and `args` the textual forms of its
angle-bracketed generic arguments (`[]` plays the role of
`PathArguments::None`, which the code treats identically to an empty
argument list). -/
structure TypePath where
  mods : List String
  name : String
  args : List String
  deriving DecidableEq, Repr

/-- `get_path_from_type` from `src/registry.rs` (lines 125-141): join all
segments but the last with the scope separator. -/
def get_path_from_type (tp : TypePath) : String :=
  String.intercalate "::" tp.mods

/-- `process_field_type` from `src/registry.rs` (lines 346-361), with the
last path segment's angle-bracketed arguments passed as `concreteArgs`.
The non-angle-bracketed fallthrough arm of the Rust `match` is the
`concreteArgs = []` case (zipping with `[]` performs no replacement). -/
def process_field_type (field : FieldDef) (concreteArgs : List String) : String :=
  if field.generic_params.isEmpty then
    field.ty
  else
    (field.generic_params.zip concreteArgs).foldl
      (fun ty pa => strReplace ty pa.1 pa.2) field.ty

/-- Total length of the dependency lists of chain entries whose key has
not been visited yet; the termination measure of the breadth-first
traversal in `collect_fields`. -/
def pendingWeight : Chains → List String → Nat
  | [], _ => 0
  | (k, d) :: rest, visited =>
    (if k ∈ visited then 0 else d.length) + pendingWeight rest visited

theorem pendingWeight_cons_le (chains : Chains) (visited : List String) (c : String) :
    pendingWeight chains (c :: visited) ≤ pendingWeight chains visited := by
  induction chains with
  | nil => simp [pendingWeight]
  | cons hd tl ih =>
    obtain ⟨k, d⟩ := hd
    simp only [pendingWeight]
    have : (if k ∈ c :: visited then 0 else d.length) ≤
        (if k ∈ visited then 0 else d.length) := by
      by_cases hk : k ∈ visited
      · simp [hk, List.mem_cons]
      · split <;> omega
    omega

theorem pendingWeight_visit (chains : Chains) (visited : List String) (c : String)
    (hc : c ∉ visited) :
    pendingWeight chains (c :: visited) + (chainsGetD chains c).length ≤
      pendingWeight chains visited := by
  induction chains with
  | nil => simp [pendingWeight, chainsGetD]
  | cons hd tl ih =>
    obtain ⟨k, d⟩ := hd
    simp only [pendingWeight, chainsGetD]
    by_cases hk : k = c
    · subst hk
      have h1 := pendingWeight_cons_le tl visited k
      simp [List.mem_cons, hc]
      omega
    · have hmem : (k ∈ c :: visited) ↔ (k ∈ visited) := by
        simp [List.mem_cons, hk]
      rw [if_neg hk]
      by_cases hkv : k ∈ visited
      · simp [hmem.mpr hkv, hkv]
        omega
      · have : ¬ (k ∈ c :: visited) := fun h => hkv (hmem.mp h)
        simp [this, hkv]
        omega

/-- The loop of `collect_fields` from `src/registry.rs` (lines 250-266):
breadth-first traversal of the chain map, queue popped from the front,
newly discovered dependencies pushed at the back, each name visited at
most once; every visited name contributes its registry fields (nothing
when it is absent from the registry). -/
def collect_fields_go (registry : Registry) (chains : Chains) :
    List String → List String → List FieldDef
  | [], _ => []
  | current :: rest, visited =>
    if h : current ∈ visited then
      collect_fields_go registry chains rest visited
    else
      (match registryGet registry current with
        | some info => info.fields
        | none => []) ++
      collect_fields_go registry chains
        (rest ++ (chainsGetD chains current).filter
          (fun dep => !((current :: visited).contains dep)))
        (current :: visited)
termination_by q visited => q.length + pendingWeight chains visited
decreasing_by
  · simp only [List.length_cons]
    omega
  · have h1 : ((chainsGetD chains current).filter
        (fun dep => !((current :: visited).contains dep))).length ≤
        (chainsGetD chains current).length := List.length_filter_le _ _
    have h2 := pendingWeight_visit chains visited current h
    simp only [List.length_append, List.length_cons]
    omega

/-- `collect_fields` from `src/registry.rs` (lines 239-269); the Rust
function returns `Result` but only ever constructs `Ok`. -/
def collect_fields (start_struct : String) (registry : Registry) (chains : Chains) :
    Except InjErr (List FieldDef) :=
  .ok (collect_fields_go registry chains [start_struct] [])

/-- The visit order of the traversal in `collect_fields`: the same
breadth-first loop, recording the names it visits.  Note it does not
consult the registry at all. -/
def bfs_order (chains : Chains) : List String → List String → List String
  | [], _ => []
  | current :: rest, visited =>
    if h : current ∈ visited then
      bfs_order chains rest visited
    else
      current ::
      bfs_order chains
        (rest ++ (chainsGetD chains current).filter
          (fun dep => !((current :: visited).contains dep)))
        (current :: visited)
termination_by q visited => q.length + pendingWeight chains visited
decreasing_by
  · simp only [List.length_cons]
    omega
  · have h1 : ((chainsGetD chains current).filter
        (fun dep => !((current :: visited).contains dep))).length ≤
        (chainsGetD chains current).length := List.length_filter_le _ _
    have h2 := pendingWeight_visit chains visited current h
    simp only [List.length_append, List.length_cons]
    omega

/-- Generic association-list lookup (first matching key), the model of
`HashMap::get` for the per-request conflict map. -/
def alistGet {β : Type _} : List (String × β) → String → Option β
  | [], _ => none
  | (k, v) :: rest, key => if k = key then some v else alistGet rest key

/-- The conflict-checking inner loop of `process_type_paths`
(`src/registry.rs` lines 180-208): one map from field name to resolved
`FieldTypeInfo`, threaded through all fields of all top-level source
entries. -/
def check_conflicts (field_types : List (String × FieldTypeInfo))
    (all_fields : List FieldDef) (tpArgs : List String) :
    Except InjErr (List (String × FieldTypeInfo)) :=
  match all_fields with
  | [] => .ok field_types
  | field :: rest =>
    let ty_str := process_field_type field tpArgs
    match alistGet field_types field.name with
    | some existing =>
      if existing.ty ≠ ty_str then
        .error (.conflictingTypes field.name existing.ty ty_str)
      else if existing.vis ≠ field.vis then
        .error (.conflictingVisibility field.name)
      else
        check_conflicts field_types rest tpArgs
    | none =>
      check_conflicts
        (field_types ++ [(field.name, ⟨field.name, ty_str, field.vis⟩)])
        rest tpArgs

/-- `process_fields` from `src/registry.rs` (lines 290-334): append each
not-yet-added field to the target's named fields after the visibility
check.  The `added_fields` name set and the accumulated output fields are
threaded explicitly; the declaring-scope argument of the check is
`registry[struct_name].module_path` where `struct_name` is the top-level
source entry currently being processed. -/
def process_fields (struct_name : String) (all_fields : List FieldDef)
    (added_fields : List String) (target_module : String) (registry : Registry)
    (tpArgs : List String) (named_fields : List FieldTypeInfo) :
    Except InjErr (List String × List FieldTypeInfo) :=
  match all_fields with
  | [] => .ok (added_fields, named_fields)
  | field :: rest =>
    if field.name ∈ added_fields then
      process_fields struct_name rest added_fields target_module registry tpArgs named_fields
    else
      let added := field.name :: added_fields
      let field_info : FieldTypeInfo :=
        ⟨field.name, process_field_type field tpArgs, field.vis⟩
      if can_access_field field_info.vis (registryGetD registry struct_name).module_path
          target_module then
        process_fields struct_name rest added target_module registry tpArgs
          (named_fields ++ [field_info])
      else
        .error (.accessViolation field_info.name field_info.vis
          (registryGetD registry struct_name).module_path target_module)

/-- The loop of `process_type_paths` over the top-level source entries
(`src/registry.rs` lines 173-219), threading the added-name set, the
conflict map and the target's named fields. -/
def process_type_paths_go (registry : Registry) (chains : Chains) :
    List TypePath → List String → List (String × FieldTypeInfo) →
    List FieldTypeInfo → Except InjErr (List FieldTypeInfo)
  | [], _, _, fields => .ok fields
  | tp :: rest, added, ftypes, fields =>
    match collect_fields tp.name registry chains with
    | .error e => .error e
    | .ok all_fields =>
      match check_conflicts ftypes all_fields tp.args with
      | .error e => .error e
      | .ok ftypes' =>
        match process_fields tp.name all_fields added "" registry tp.args fields with
        | .error e => .error e
        | .ok (added', fields') =>
          process_type_paths_go registry chains rest added' ftypes' fields'

/-- `process_type_paths` from `src/registry.rs` (lines 164-222).  The
requesting-scope argument of every visibility check is the local
`target_module`, initialised to the empty string (line 176). -/
def process_type_paths (type_paths : List TypePath) (fields : List FieldTypeInfo)
    (registry : Registry) (chains : Chains) : Except InjErr (List FieldTypeInfo) :=
  process_type_paths_go registry chains type_paths [] [] fields

/-- The shape of the annotated item, as far as `inject_fields` inspects
it: a struct with named fields (carrying the target's own fields), a
struct without named fields, or a non-struct item. -/
inductive InputData where
  | structNamed (fields : List FieldTypeInfo)
  | structUnnamed
  | notStruct
  deriving DecidableEq, Repr

/-- The provider-existence part of `validate_and_process_input`
(`src/registry.rs` lines 394-404): the first missing provider aborts. -/
def validate_structs : List TypePath → Registry → Option InjErr
  | [], _ => none
  | tp :: rest, r =>
    if (registryGet r tp.name).isSome then validate_structs rest r
    else some (.unknownProvider tp.name)

/-- `validate_and_process_input` from `src/registry.rs` (lines 376-407):
structural check on the target first, then provider existence; returns
the first error only. -/
def validate_and_process_input (input : InputData) (tps : List TypePath)
    (r : Registry) : Option InjErr :=
  match input with
  | .structNamed _ => validate_structs tps r
  | .structUnnamed => some .onlyNamedFields
  | .notStruct => some .onlyStructs

/-- `update_module_paths` from `src/registry.rs` (lines 431-449):
in-place update of each referenced provider's `module_path`; mutations
before a failure persist, so the (possibly partial) registry is returned
alongside the first error. -/
def update_module_paths : List TypePath → Registry → Option InjErr × Registry
  | [], r => (none, r)
  | tp :: rest, r =>
    if (registryGet r tp.name).isSome then
      update_module_paths rest (registrySetScope r tp.name (get_path_from_type tp))
    else
      (some (.notInjectable tp.name), r)

/-- Phase B of `inject_fields` (`src/lib.rs` lines 288-293): one
`check_and_update_injection_chain` call per source reference, collecting
every error while still applying each successful update to the chain
map. -/
def run_chain_checks (config : List TypePath) (target : String) (chains : Chains) :
    List InjErr × Chains :=
  config.foldl
    (fun acc tp =>
      match check_and_update_injection_chain acc.2 target tp.name with
      | .ok c => (acc.1, c)
      | .error e => (acc.1 ++ [e], acc.2))
    ([], chains)

/-- The two global registries of the crate, passed as explicit state. -/
structure GlobalState where
  registry : Registry
  chains : Chains
  deriving DecidableEq, Repr

/-- `inject_fields` from `src/lib.rs` (lines 276-333): collect the Phase A
validation error and all Phase B chain errors, return them as a batch if
any; otherwise update module paths, then merge fields via
`process_type_paths`.  The returned state reflects the mutations of the
global registries performed along the way. -/
def inject_fields (config : List TypePath) (target_name : String) (input : InputData)
    (st : GlobalState) : Except (List InjErr) (List FieldTypeInfo) × GlobalState :=
  let errA := validate_and_process_input input config st.registry
  let bres := run_chain_checks config target_name st.chains
  let errors := errA.toList ++ bres.1
  if errors.isEmpty then
    match update_module_paths config st.registry with
    | (some e, reg) => (.error [e], ⟨reg, bres.2⟩)
    | (none, reg) =>
      match input with
      | .structNamed fields =>
        match process_type_paths config fields reg bres.2 with
        | .ok out => (.ok out, ⟨reg, bres.2⟩)
        | .error e => (.error [e], ⟨reg, bres.2⟩)
      | .structUnnamed => (.error [.onlyNamedFields], ⟨reg, bres.2⟩)
      | .notStruct => (.error [.onlyStructs], ⟨reg, bres.2⟩)
  else
    (.error errors, ⟨st.registry, bres.2⟩)

/-! ## Basic lemmas about the hash-set and hash-map models -/

theorem mem_hsInsert (s : DepSet) (x y : String) :
    y ∈ hsInsert s x ↔ y ∈ s ∨ y = x := by
  unfold hsInsert
  split
  · rename_i hx
    constructor
    · exact fun h => Or.inl h
    · rintro (h | rfl)
      · exact h
      · exact hx
  · simp [List.mem_append]

theorem self_mem_hsInsert (s : DepSet) (x : String) : x ∈ hsInsert s x :=
  (mem_hsInsert s x x).mpr (Or.inr rfl)

theorem toFinset_hsInsert (s : DepSet) (x : String) :
    (hsInsert s x).toFinset = insert x s.toFinset := by
  ext y
  simp [mem_hsInsert, or_comm]

theorem toFinset_hsExtend (s : DepSet) (l : List String) :
    (hsExtend s l).toFinset = s.toFinset ∪ l.toFinset := by
  induction l generalizing s with
  | nil => simp [hsExtend]
  | cons a l ih =>
    show (hsExtend (hsInsert s a) l).toFinset = _
    rw [ih, toFinset_hsInsert]
    ext y
    simp
    try tauto

theorem mem_hsExtend (s : DepSet) (l : List String) (y : String) :
    y ∈ hsExtend s l ↔ y ∈ s ∨ y ∈ l := by
  have := toFinset_hsExtend s l
  have h1 : y ∈ (hsExtend s l).toFinset ↔ y ∈ s.toFinset ∪ l.toFinset := by rw [this]
  simpa using h1

theorem chainsGetD_update_self (c : Chains) (k : String) (f : DepSet → DepSet) :
    chainsGetD (chainsUpdate c k f) k = f (chainsGetD c k) := by
  induction c with
  | nil =>
    show chainsGetD [(k, f [])] k = f (chainsGetD [] k)
    simp [chainsGetD]
  | cons hd tl ih =>
    obtain ⟨k', v⟩ := hd
    by_cases hk : k' = k
    · subst hk
      show chainsGetD (if k' = k' then (k', f v) :: tl else _) k' = _
      rw [if_pos rfl]
      simp [chainsGetD]
    · show chainsGetD (if k' = k then _ else (k', v) :: chainsUpdate tl k f) k = _
      rw [if_neg hk]
      show (if k' = k then v else chainsGetD (chainsUpdate tl k f) k) =
        f (if k' = k then v else chainsGetD tl k)
      rw [if_neg hk, if_neg hk, ih]

theorem chainsGetD_update_other (c : Chains) (k n : String) (f : DepSet → DepSet)
    (h : n ≠ k) :
    chainsGetD (chainsUpdate c k f) n = chainsGetD c n := by
  induction c with
  | nil =>
    show chainsGetD [(k, f [])] n = chainsGetD [] n
    show (if k = n then f [] else chainsGetD [] n) = chainsGetD [] n
    rw [if_neg (fun hh => h hh.symm)]
  | cons hd tl ih =>
    obtain ⟨k', v⟩ := hd
    by_cases hk : k' = k
    · subst hk
      show chainsGetD (if k' = k' then (k', f v) :: tl else _) n = _
      rw [if_pos rfl]
      show (if k' = n then f v else chainsGetD tl n) = if k' = n then v else chainsGetD tl n
      rw [if_neg (fun hh => h hh.symm), if_neg (fun hh => h hh.symm)]
    · show chainsGetD (if k' = k then _ else (k', v) :: chainsUpdate tl k f) n = _
      rw [if_neg hk]
      show (if k' = n then v else chainsGetD (chainsUpdate tl k f) n) =
        if k' = n then v else chainsGetD tl n
      rw [ih]

/-- The boolean cycle test of `check_and_update_injection_chain`, as the
proposition the specification states. -/
theorem cycle_test_iff (target_deps source_deps : DepSet) (target : String) :
    (source_deps.any fun dep => target_deps.contains dep || dep == target) = true ↔
      ∃ d ∈ source_deps, d ∈ target_deps ∨ d = target := by
  rw [List.any_eq_true]
  constructor
  · rintro ⟨d, hd, hp⟩
    refine ⟨d, hd, ?_⟩
    rcases Bool.or_eq_true_iff.mp hp with h | h
    · exact Or.inl (by simpa using h)
    · exact Or.inr (by simpa using h)
  · rintro ⟨d, hd, hp⟩
    refine ⟨d, hd, ?_⟩
    rcases hp with h | h
    · exact Bool.or_eq_true_iff.mpr (Or.inl (by simpa using h))
    · exact Bool.or_eq_true_iff.mpr (Or.inr (by simpa using h))

/-- **C1.**  `check_and_update_injection_chain` behaves as specified: a
self-edge fails with the recursive-injection error; otherwise, with
`targetDeps` the recorded set of `target` and `sourceDeps` the recorded
set of `source` plus `source` itself, it fails with the circular-chain
error exactly when some element of `sourceDeps` is in `targetDeps` or
equals `target`, and otherwise succeeds with the new recorded set of
`target` equal (as a set) to `targetDeps ∪ {source} ∪ sourceDeps`. -/
theorem C1_tryAddEdge_spec (chains : Chains) (target source : String) :
    (source = target →
      check_and_update_injection_chain chains target source =
        .error (.recursiveInjection source)) ∧
    (source ≠ target →
      ((∃ d ∈ hsInsert (chainsGetD chains source) source,
          d ∈ chainsGetD chains target ∨ d = target) →
        check_and_update_injection_chain chains target source =
          .error (.circularChain target source)) ∧
      (¬ (∃ d ∈ hsInsert (chainsGetD chains source) source,
          d ∈ chainsGetD chains target ∨ d = target) →
        ∃ chains2,
          check_and_update_injection_chain chains target source = .ok chains2 ∧
          (chainsGetD chains2 target).toFinset =
            (chainsGetD chains target).toFinset ∪ {source} ∪
            (hsInsert (chainsGetD chains source) source).toFinset)) := by
  refine ⟨fun hst => ?_, fun hst => ⟨fun hcyc => ?_, fun hcyc => ?_⟩⟩
  · simp [check_and_update_injection_chain, hst]
  · rw [check_and_update_injection_chain, if_neg hst, if_pos]
    exact (cycle_test_iff _ _ _).mpr hcyc
  · have hres : check_and_update_injection_chain chains target source =
        .ok (chainsUpdate chains target
          (fun t => hsExtend (hsInsert t source)
            (hsInsert (chainsGetD chains source) source))) := by
      rw [check_and_update_injection_chain, if_neg hst, if_neg]
      intro h
      exact hcyc ((cycle_test_iff _ _ _).mp h)
    refine ⟨_, hres, ?_⟩
    rw [chainsGetD_update_self, toFinset_hsExtend, toFinset_hsInsert]
    ext y
    simp
    tauto

/-- Witness for C1: adding the edge `"A" → "B"` to the empty graph
succeeds and records exactly `{"B"}` for `"A"`. -/
theorem C1_tryAddEdge_spec_witness :
    ∃ chains2,
      check_and_update_injection_chain [] "A" "B" = .ok chains2 ∧
      (chainsGetD chains2 "A").toFinset =
        (chainsGetD ([] : Chains) "A").toFinset ∪ {"B"} ∪
        (hsInsert (chainsGetD ([] : Chains) "B") "B").toFinset :=
  ((C1_tryAddEdge_spec [] "A" "B").2 (by decide)).2 (by decide)

/-- **C3, counterexample.**  The claim says re-validating an
already-present edge succeeds and changes nothing; in fact, with `"S"`
already recorded in `"T"`'s dependency set, validating the edge
`"T" → "S"` again fails with the circular-chain error, because the cycle
test finds `source` itself inside `targetDeps`. -/
theorem C3_revalidate_cex :
    check_and_update_injection_chain [] "T" "S" = .ok [("T", ["S"])] ∧
    "S" ∈ chainsGetD [("T", ["S"])] "T" ∧
    check_and_update_injection_chain [("T", ["S"])] "T" "S" =
      .error (.circularChain "T" "S") :=
  ⟨rfl, by decide, rfl⟩

/-- **C3, amended.**  If `source` is already in `target`'s recorded
dependency set (and `source ≠ target`, as holds after any successful
validation of that edge), re-validating the edge is not idempotent: it
fails with the circular-chain error, and — the error being returned
before any mutation — the recorded sets are left unchanged. -/
theorem C3_revalidate_fails (chains : Chains) (target source : String)
    (h1 : source ∈ chainsGetD chains target) (h2 : source ≠ target) :
    check_and_update_injection_chain chains target source =
      .error (.circularChain target source) := by
  rw [check_and_update_injection_chain, if_neg h2, if_pos]
  exact (cycle_test_iff _ _ _).mpr
    ⟨source, self_mem_hsInsert _ _, Or.inl h1⟩

/-- Witness for the amended C3 at a concrete chain map. -/
theorem C3_revalidate_fails_witness :
    check_and_update_injection_chain [("X", ["Y", "Z"])] "X" "Z" =
      .error (.circularChain "X" "Z") :=
  C3_revalidate_fails [("X", ["Y", "Z"])] "X" "Z" (by decide) (by decide)

/-- **C9, counterexample.**  The claim says every key of the dependency
graph has itself in its own recorded set; after the successful edge
addition `"A" → "B"` on the empty graph, `"A"` is a key whose recorded
set is `["B"]`, which does not contain `"A"`. -/
theorem C9_visited_cex :
    check_and_update_injection_chain [] "A" "B" = .ok [("A", ["B"])] ∧
    "A" ∉ chainsGetD [("A", ["B"])] "A" :=
  ⟨rfl, by decide⟩

/-- **C9, amended.**  The recorded set of a name never contains the name
itself: successful edge additions preserve the invariant that no name's
recorded transitive-dependency set contains that name (the cycle test
rejects any edge that would put `target` into its own set).  (What the
graph does guarantee is that a *source* of a successful edge ends up,
together with its closure, inside the *target*'s set.) -/
theorem C9_no_self_dependency (chains chains2 : Chains) (target source : String)
    (hinv : ∀ n, n ∉ chainsGetD chains n)
    (h : check_and_update_injection_chain chains target source = .ok chains2) :
    ∀ n, n ∉ chainsGetD chains2 n := by
  by_cases hst : source = target
  · rw [check_and_update_injection_chain, if_pos hst] at h
    exact absurd h (by simp)
  rw [check_and_update_injection_chain, if_neg hst] at h
  by_cases hcyc : ((hsInsert (chainsGetD chains source) source).any
      fun dep => (chainsGetD chains target).contains dep || dep == target) = true
  · rw [if_pos hcyc] at h
    exact absurd h (by simp)
  rw [if_neg hcyc] at h
  have h2 : chains2 = chainsUpdate chains target
      (fun t => hsExtend (hsInsert t source)
        (hsInsert (chainsGetD chains source) source)) := by
    exact (Except.ok.injEq _ _).mp h.symm
  subst h2
  intro n
  by_cases hn : n = target
  · subst hn
    rw [chainsGetD_update_self]
    intro hmem
    rcases (mem_hsExtend _ _ _).mp hmem with hmem' | hmem'
    · rcases (mem_hsInsert _ _ _).mp hmem' with hmem'' | hmem''
      · exact hinv n hmem''
      · exact hst hmem''.symm
    · exact hcyc ((cycle_test_iff _ _ _).mpr ⟨n, hmem', Or.inr rfl⟩)
  · rw [chainsGetD_update_other _ _ _ _ hn]
    exact hinv n

/-- Witness for the amended C9: after adding `"A" → "B"` to the empty
graph, `"B"`'s recorded set does not contain `"B"`. -/
theorem C9_no_self_dependency_witness :
    "B" ∉ chainsGetD [("A", ["B"])] "B" :=
  C9_no_self_dependency [] [("A", ["B"])] "A" "B"
    (fun n => List.not_mem_nil n) rfl "B"

/-- **C5.**  The `Private` case of the visibility predicate: `true` when
both the declaring scope `D` and the requesting scope `R` are empty;
otherwise `true` exactly when `R = D` or `R` is a strict descendant of
`D`, i.e. `R` starts with `D` followed immediately by the separator
`"::"`.  In particular a sibling scope sharing only a textual prefix of
`D` is rejected. -/
theorem C5_private_access_spec :
    (∀ D R : String,
      can_access_field .Private D R = true ↔
        (D = "" ∧ R = "") ∨ R = D ∨
        (strStartsWith R D = true ∧ strStartsWith (strDrop R D.length) "::" = true)) ∧
    can_access_field .Private "app::foo" "app::foobar" = false := by
  constructor
  · intro D R
    show (if D == "" && R == "" then true
      else (R == D || (strStartsWith R D &&
        strStartsWith (strDrop R D.length) "::"))) = true ↔ _
    by_cases hDR : D = "" ∧ R = ""
    · rw [if_pos (by simp [hDR.1, hDR.2])]
      simp [hDR]
    · rw [if_neg (by simpa [Bool.and_eq_true, beq_iff_eq] using hDR)]
      simp only [Bool.or_eq_true, Bool.and_eq_true, beq_iff_eq]
      tauto
  · decide

/-- **C6.**  `process_field_type` returns the field type unchanged when
the owning provider's generic-parameter list is empty, and otherwise
performs the positional zip of parameters against the concrete arguments
(truncating at the shorter list) with textual substring replacement, in
order.  The third conjunct shows truncation concretely: with parameters
`K, V` and a single argument, only `K` is replaced. -/
theorem C6_resolve_type_spec (field : FieldDef) (concreteArgs : List String) :
    process_field_type field concreteArgs =
      (field.generic_params.zip concreteArgs).foldl
        (fun ty pa => strReplace ty pa.1 pa.2) field.ty ∧
    (field.generic_params = [] → process_field_type field concreteArgs = field.ty) ∧
    process_field_type ⟨"map", "HashMap < K , V >", .Public, ["K", "V"]⟩ ["String"] =
      "HashMap < String , V >" := by
  refine ⟨?_, ?_, ?_⟩
  · rw [process_field_type]
    split
    · rename_i hempty
      rw [List.isEmpty_iff.mp hempty]
      simp
    · rfl
  · intro h
    rw [process_field_type, if_pos (by simp [h])]
  · show strReplace "HashMap < K , V >" "K" "String" = "HashMap < String , V >"
    rw [strReplace]
    simp [replaceAll]

/-- Witness for C6: a non-generic field's type is returned unchanged. -/
theorem C6_resolve_type_spec_witness :
    process_field_type ⟨"data", "T", .Public, []⟩ ["String"] = "T" :=
  (C6_resolve_type_spec ⟨"data", "T", .Public, []⟩ ["String"]).2.1 rfl

/-- **C4.**  The conflict map from field name to resolved
`(type, visibility)`: when a collected field's name is already present, a
differing resolved type fails with the conflicting-field-type error; an
identical resolved type with differing visibility fails with the
conflicting-field-visibility error; an identical pair is a no-op with the
first occurrence kept (the map is passed on unchanged); an absent name is
recorded.  The final conjuncts show the map persisting across two
top-level source entries of one request: same name with differing
resolved types errors, while an identical (type, visibility) repeat
merges without error, keeping a single copy of the field. -/
theorem C4_conflict_map_spec (field_types : List (String × FieldTypeInfo))
    (field : FieldDef) (rest : List FieldDef) (tpArgs : List String)
    (existing : FieldTypeInfo)
    (h : alistGet field_types field.name = some existing) :
    (existing.ty ≠ process_field_type field tpArgs →
      check_conflicts field_types (field :: rest) tpArgs =
        .error (.conflictingTypes field.name existing.ty
          (process_field_type field tpArgs))) ∧
    (existing.ty = process_field_type field tpArgs → existing.vis ≠ field.vis →
      check_conflicts field_types (field :: rest) tpArgs =
        .error (.conflictingVisibility field.name)) ∧
    (existing.ty = process_field_type field tpArgs → existing.vis = field.vis →
      check_conflicts field_types (field :: rest) tpArgs =
        check_conflicts field_types rest tpArgs) ∧
    process_type_paths [⟨[], "A", []⟩, ⟨[], "B", []⟩] []
      [("A", ⟨[⟨"x", "u64", .Public, []⟩], ""⟩),
       ("B", ⟨[⟨"x", "u32", .Public, []⟩], ""⟩)] [] =
      .error (.conflictingTypes "x" "u64" "u32") ∧
    process_type_paths [⟨[], "A", []⟩, ⟨[], "C", []⟩] []
      [("A", ⟨[⟨"x", "u64", .Public, []⟩], ""⟩),
       ("C", ⟨[⟨"x", "u64", .Public, []⟩], ""⟩)] [] =
      .ok [⟨"x", "u64", .Public⟩] := by
  refine ⟨fun hty => ?_, fun hty hvis => ?_, fun hty hvis => ?_, ?_, ?_⟩
  · rw [check_conflicts]
    simp only [h]
    rw [if_pos hty]
  · rw [check_conflicts]
    simp only [h]
    rw [if_neg (by simp [hty]), if_pos hvis]
  · rw [check_conflicts]
    simp only [h]
    rw [if_neg (by simp [hty]), if_neg (by simp [hvis])]
  · simp [process_type_paths, process_type_paths_go, collect_fields, collect_fields_go,
      check_conflicts, process_fields, alistGet, registryGet, registryGetD, chainsGetD,
      can_access_field, process_field_type]
  · simp [process_type_paths, process_type_paths_go, collect_fields, collect_fields_go,
      check_conflicts, process_fields, alistGet, registryGet, registryGetD, chainsGetD,
      can_access_field, process_field_type]

/-- Witness for C4: a `u32` collected for a name already resolved at
`u64` raises the conflicting-type error. -/
theorem C4_conflict_map_spec_witness :
    check_conflicts [("x", ⟨"x", "u64", .Public⟩)] [⟨"x", "u32", .Public, []⟩] [] =
      .error (.conflictingTypes "x" "u64" "u32") :=
  (C4_conflict_map_spec [("x", ⟨"x", "u64", .Public⟩)] ⟨"x", "u32", .Public, []⟩ [] []
    ⟨"x", "u64", .Public⟩ rfl).1 (by decide)

/-- **C2.**  Failing input for the access-check claim.  Provider `A`
declares the private field `x` and its recorded scope is `"m1"`; provider
`B` (scope `""`) transitively depends on `A`.  Composing a target from
the single source entry `B` collects `x` through the chain map and
appends it: the code's check is
`can_access_field x.vis registry[B].module_path ""` — the declaring-scope
argument is the *top-level entry's* provider scope and the
requesting-scope argument is the constant empty string — which passes.
The check the claim specifies,
`canAccess(x.vis, declaringProvider.moduleScope, targetScope)` =
`can_access_field .Private "m1" ""`, is `false`, so per the claim the
request should have aborted with an access violation naming `x`. -/
theorem C2_transitive_access_check_divergence :
    process_type_paths [⟨[], "B", []⟩] []
      [("A", ⟨[⟨"x", "u64", .Private, []⟩], "m1"⟩), ("B", ⟨[], ""⟩)]
      [("B", ["A"])] =
      .ok [⟨"x", "u64", .Private⟩] ∧
    (registryGetD [("A", ⟨[⟨"x", "u64", .Private, []⟩], "m1"⟩), ("B", ⟨[], ""⟩)]
      "A").module_path = "m1" ∧
    can_access_field .Private "m1" "" = false := by
  refine ⟨?_, rfl, by decide⟩
  simp [process_type_paths, process_type_paths_go, collect_fields, collect_fields_go,
    check_conflicts, process_fields, alistGet, registryGet, registryGetD, chainsGetD,
    can_access_field, process_field_type]

/-- Fields contributed by one visited name: its registry fields, nothing
when the name is absent from the registry. -/
def registry_contribution (registry : Registry) (n : String) : List FieldDef :=
  match registryGet registry n with
  | some info => info.fields
  | none => []

theorem collect_go_eq_flatMap (registry : Registry) (chains : Chains) :
    ∀ q v, collect_fields_go registry chains q v =
      (bfs_order chains q v).flatMap (registry_contribution registry) := by
  intro q v
  induction q, v using bfs_order.induct chains with
  | case1 v => simp [collect_fields_go, bfs_order]
  | case2 current rest v h ih =>
    simp only [collect_fields_go, bfs_order]
    rw [dif_pos h, dif_pos h]
    exact ih
  | case3 current rest v h ih =>
    simp only [collect_fields_go, bfs_order]
    rw [dif_neg h, dif_neg h, List.flatMap_cons, ih]
    rfl

theorem bfs_order_nodup_aux (chains : Chains) :
    ∀ q v, (∀ x ∈ bfs_order chains q v, x ∉ v) ∧ (bfs_order chains q v).Nodup := by
  intro q v
  induction q, v using bfs_order.induct chains with
  | case1 v => simp [bfs_order]
  | case2 current rest v h ih =>
    simp only [bfs_order]
    rw [dif_pos h]
    exact ih
  | case3 current rest v h ih =>
    simp only [bfs_order]
    rw [dif_neg h]
    obtain ⟨ih1, ih2⟩ := ih
    constructor
    · intro x hx
      rcases List.mem_cons.mp hx with rfl | hx'
      · exact h
      · intro hxv
        exact ih1 x hx' (List.mem_cons_of_mem _ hxv)
    · refine List.nodup_cons.mpr ⟨?_, ih2⟩
      intro hcur
      exact ih1 current hcur (List.mem_cons_self _ _)

/-- **C10.**  The breadth-first field collection always returns
successfully, for every registry, chain map and start name: its result is
`Ok` of the concatenated registry fields of the visited names in visit
order.  The visit order `bfs_order` is computed from the chain map alone
— a name absent from the registry contributes no fields
(`registry_contribution` is empty there) and raises no error, while its
recorded dependencies are still expanded — and it is duplicate-free, so
each name is visited at most once. -/
theorem C10_collect_total (start : String) (registry : Registry) (chains : Chains) :
    collect_fields start registry chains =
      .ok ((bfs_order chains [start] []).flatMap (registry_contribution registry)) ∧
    (bfs_order chains [start] []).Nodup := by
  refine ⟨?_, (bfs_order_nodup_aux chains [start] []).2⟩
  simp only [collect_fields, collect_go_eq_flatMap]

/-- **C7.**  When the Phase A validation error (at most one) together
with the Phase B edge-validation errors — collected by
`run_chain_checks`, which runs over every source reference regardless of
Phase A's outcome and keeps applying successful chain updates — form a
non-empty batch, `inject_fields` returns exactly that batch, the registry
is untouched (no module-scope update), and no field merging occurs; the
chain map still reflects every successful Phase B update. -/
theorem C7_error_batch (config : List TypePath) (target_name : String)
    (input : InputData) (st : GlobalState)
    (h : (validate_and_process_input input config st.registry).toList ++
        (run_chain_checks config target_name st.chains).1 ≠ []) :
    inject_fields config target_name input st =
      (.error ((validate_and_process_input input config st.registry).toList ++
          (run_chain_checks config target_name st.chains).1),
        ⟨st.registry, (run_chain_checks config target_name st.chains).2⟩) := by
  have hne : ¬ (((validate_and_process_input input config st.registry).toList ++
      (run_chain_checks config target_name st.chains).1).isEmpty = true) := by
    intro hh
    exact h (List.isEmpty_iff.mp hh)
  dsimp only [inject_fields]
  rw [if_neg hne]

/-- Witness for C7: a request whose target is also its (unregistered)
source produces both the Phase A unknown-provider error and the Phase B
recursive-injection error in one batch, with no state change. -/
theorem C7_error_batch_witness :
    inject_fields [⟨[], "T", []⟩] "T" (.structNamed []) ⟨[], []⟩ =
      (.error [.unknownProvider "T", .recursiveInjection "T"], ⟨[], []⟩) := by
  rw [C7_error_batch [⟨[], "T", []⟩] "T" (.structNamed []) ⟨[], []⟩ (by decide)]
  rfl

/-- **C8.**  No rollback: when Phase A and Phase B of a request produce
no errors but the request as a whole still fails in a later phase, the
chain map afterwards is exactly the one Phase B left
(`run_chain_checks`'s output); the failed request does not undo its
dependency-graph mutations. -/
theorem C8_no_rollback (config : List TypePath) (target_name : String)
    (input : InputData) (st : GlobalState) (e : List InjErr)
    (hA : validate_and_process_input input config st.registry = none)
    (hB : (run_chain_checks config target_name st.chains).1 = [])
    (hfail : (inject_fields config target_name input st).1 = .error e) :
    (inject_fields config target_name input st).2.chains =
      (run_chain_checks config target_name st.chains).2 := by
  dsimp only [inject_fields]
  rw [hA, hB]
  rw [if_pos (by rfl)]
  split
  · rfl
  · split
    · split
      · rfl
      · rfl
    · rfl
    · rfl

/-- Witness for C8: a request that passes Phases A and B (recording the
edge `"T" → "A"`), then fails the access check on the private field `x`
of provider `A` (scope `"m1"` after the module-scope update), still
leaves `"T" → "A"` recorded in the chain map. -/
theorem C8_no_rollback_witness :
    (inject_fields [⟨["m1"], "A", []⟩] "T" (.structNamed [])
      ⟨[("A", ⟨[⟨"x", "u64", .Private, []⟩], ""⟩)], []⟩).2.chains = [("T", ["A"])] := by
  rw [C8_no_rollback [⟨["m1"], "A", []⟩] "T" (.structNamed [])
    ⟨[("A", ⟨[⟨"x", "u64", .Private, []⟩], ""⟩)], []⟩
    [.accessViolation "x" .Private "m1" ""] rfl rfl ?hfail]
  · rfl
  case hfail =>
    have hm : "::".intercalate ["m1"] = "m1" := rfl
    simp [hm, inject_fields, validate_and_process_input, validate_structs, run_chain_checks,
      check_and_update_injection_chain, hsInsert, hsExtend, chainsGetD, chainsUpdate,
      update_module_paths, registrySetScope, registryGet, get_path_from_type,
      process_type_paths, process_type_paths_go, collect_fields, collect_fields_go,
      check_conflicts, process_fields, alistGet, registryGetD, process_field_type,
      can_access_field, strStartsWith, strDrop, trimLeadingIn, List.isPrefixOf]

end Injectables
